import Mathlib

/-!
Verification development for the clause-condensation engine
(`CLAUSES/ccl_condensation.c`).

The file shallowly embeds the five functions of the source file —
`do_condense_lin`, `CondenseOnce`, `CondenseOnceSet`, `CondenseSet` and
`Condense` — as pure Lean functions.  The external collaborators that the
source consumes (one-way literal unification, reflexive unification,
the three subsumption predicates, duplicate/tautology normalization,
weight computation and subsumption-order sorting) are not part of the
source file; they are modelled from the spec as fields of an `Oracles`
structure, together with the few contract facts the spec states about
them that the control algorithms rely on (normalization only removes
literals, sorting is a permutation and is idempotent).

Clauses are modelled as their literal list plus the cached
positive/negative literal counts, the cached weight and the derivation
record, exactly the fields the source reads and writes.  The global
counters `CondensationAttempts` / `CondensationSuccesses` are threaded
through as an explicit `Stats` value.  The one abort path of the source
(the `Error("SWAP = TRUE", ...)` call in `CondenseOnce`) is modelled by
returning in the `Except Unit` monad; `.error ()` is "the process
aborts".
-/

namespace Cond

/-- The process-wide counters `CondensationAttempts` and
`CondensationSuccesses` from the head of the source file, threaded
explicitly. -/
structure Stats where
  attempts : Nat
  successes : Nat
  deriving DecidableEq, Repr

/-- A clause, with exactly the fields of `Clause_p` that the source file
reads or writes: the literal list, the cached polarity counts
(`pos_lit_no` / `neg_lit_no`), the cached `weight`, and the append-only
derivation record. -/
structure Clause (L : Type) where
  literals : List L
  pos_lit_no : Nat
  neg_lit_no : Nat
  weight : Nat
  derivation : List Nat
  deriving DecidableEq, Repr

/-- Modelled from the spec: the external capabilities consumed by the
condensation core (§6 of the spec), none of which are part of the source
file.  `L` is the literal type, `S` the substitution type.

* `emptySubst`, `unifyOneWay`, `unifySides`: the substitution object and
  the two unification primitives.  `unifyOneWay l1 l2 swap σ` is
  `LiteralUnifyOneWay(l1, l2, subst, swap)`; on failure it commits
  nothing, so each fresh attempt starts from `emptySubst` (the source
  backtracks the substitution after every successful attempt).
* `inst σ l` is the instantiation of a literal under the current
  bindings, used to model `EqnListCopyExcept` (clone all literals except
  one, under the caller's current substitution).
* `subsumes` is the plain `ClauseSubsumesClause`, `subsumesModSetEq` is
  `ClauseSubsumesClauseModuloSetEq`; both take (candidate, target)
  literal lists.  Following the spec's own recommendation, the
  "hypothetically removed" annotation of the linear pass is threaded as
  an explicit exclusion: the target list passed to `subsumesModSetEq`
  already omits the flagged literal.
* `removeDuplicates` / `removeResolved` are `EqnListRemoveDuplicates` /
  `EqnListRemoveResolved`; the spec says they only remove literals,
  which is the recorded contract.
* `weight` is `ClauseStandardWeight`, `sortLits` is
  `ClauseSubsumeOrderSortLits`; sorting permutes the literal list and is
  idempotent (it establishes a canonical order).
* `isNeg` is `EqnIsNegative`. -/
structure Oracles (L : Type) (S : Type) where
  emptySubst : S
  unifyOneWay : L → L → Bool → S → Option S
  unifySides : L → S → Option S
  inst : S → L → L
  subsumes : List L → List L → Bool
  subsumesModSetEq : List L → List L → Bool
  removeDuplicates : List L → List L
  removeResolved : List L → List L
  weight : List L → Nat
  sortLits : List L → List L
  isNeg : L → Bool
  removeDuplicates_length : ∀ l, (removeDuplicates l).length ≤ l.length
  removeResolved_length : ∀ l, (removeResolved l).length ≤ l.length
  sortLits_length : ∀ l, (sortLits l).length = l.length
  sortLits_idem : ∀ l, sortLits (sortLits l) = sortLits l

variable {L S : Type}

/-- Number of positive literals of a literal list (what
`ClauseRecomputeLitCounts` caches into `pos_lit_no`). -/
def posCount (O : Oracles L S) (ls : List L) : Nat :=
  ls.countP (fun l => !O.isNeg l)

/-- Number of negative literals of a literal list. -/
def negCount (O : Oracles L S) (ls : List L) : Nat :=
  ls.countP (fun l => O.isNeg l)

/-- `CondensationAttempts++`. -/
def bumpAttempts (st : Stats) : Stats :=
  { st with attempts := st.attempts + 1 }

/-- `CondensationSuccesses++`. -/
def bumpSuccesses (st : Stats) : Stats :=
  { st with successes := st.successes + 1 }

/-- The derivation code `DCCondense`. -/
def DCCondense : Nat := 1

/-- `ClausePushDerivation(clause, DCCondense, NULL, NULL)`. -/
def pushDeriv (cl : Clause L) : Clause L :=
  { cl with derivation := DCCondense :: cl.derivation }

/-- Candidate construction and test, shared verbatim by `CondenseOnce`
and `CondenseOnceSet` (source lines 142-149 and 192-199): clone all
literals except the chosen one under the current substitution (`base`
is already the literal list without the excluded literal, `σ` the
substitution produced by the successful unification), backtrack the
substitution, remove duplicates, remove resolved literals, sort into
subsumption order, and test plain subsumption against the original
clause.  Returns the candidate's literal list on success. -/
def buildCandidate (O : Oracles L S) (target base : List L) (σ : S) :
    Option (List L) :=
  let instd := base.map (O.inst σ)
  let nl := O.removeResolved (O.removeDuplicates instd)
  let sorted := O.sortLits nl
  if O.subsumes sorted target then some sorted else none

/-- The body of the `for(swap = false; !swap; swap = true)` loop of
`CondenseOnce` (source lines 134-165): entering the body with
`swap = true` is the `Error("SWAP = TRUE", SYNTAX_ERROR)` abort;
otherwise one one-way unification of `l1` against `l2` with the current
`swap` value is attempted and, on success, a candidate is built and
tested. -/
def plainSwapBody (O : Oracles L S) (target base : List L) (l1 l2 : L)
    (swap : Bool) : Except Unit (Option (List L)) :=
  if swap = true then
    .error ()
  else
    match O.unifyOneWay l1 l2 swap O.emptySubst with
    | some σ => .ok (buildCandidate O target base σ)
    | none => .ok none

/-- The `for(swap = false; !swap; swap = true)` loop of `CondenseOnce`,
with the number of remaining loop iterations (`1` while `swap` is
`false`, `0` once it is `true`) as a structural recursion budget: the
loop condition `!swap` is checked before the body, the body runs, and
`swap` is set to `true` for the next check. -/
def plainSwapIter (O : Oracles L S) (target base : List L) (l1 l2 : L) :
    Nat → Bool → Except Unit (Option (List L))
  | 0, _ => .ok none
  | budget + 1, swap =>
    if swap = false then
      match plainSwapBody O target base l1 l2 swap with
      | .error e => .error e
      | .ok (some c) => .ok (some c)
      | .ok none => plainSwapIter O target base l1 l2 budget true
    else
      .ok none

/-- Entry point of the swap loop of `CondenseOnce` at a given `swap`
value. -/
def plainSwapLoop (O : Oracles L S) (target base : List L) (l1 l2 : L)
    (swap : Bool) : Except Unit (Option (List L)) :=
  plainSwapIter O target base l1 l2 (cond swap 0 1) swap

/-- The inner `for(l2 = l1->next; l2; l2 = l2->next)` scan of
`CondenseOnce`.  The invariant maintained by the callers is
`pre ++ suf = target`: `pre` holds the literals before the current
`l2` (including `l1`), so the candidate base for removing the head
`l2` is `pre ++ suf'`. -/
def innerScan (O : Oracles L S) (target : List L) (l1 : L)
    (pre suf : List L) : Except Unit (Option (List L)) :=
  match suf with
  | [] => .ok none
  | l2 :: suf' =>
    match plainSwapLoop O target (pre ++ suf') l1 l2 false with
    | .error e => .error e
    | .ok (some c) => .ok (some c)
    | .ok none => innerScan O target l1 (pre ++ [l2]) suf'

/-- The outer `for(l1 = clause->literals; l1; l1 = l1->next)` scan of
`CondenseOnce`, with `pre ++ suf = target`. -/
def outerScan (O : Oracles L S) (target : List L) (pre suf : List L) :
    Except Unit (Option (List L)) :=
  match suf with
  | [] => .ok none
  | l1 :: rest =>
    match innerScan O target l1 (pre ++ [l1]) rest with
    | .error e => .error e
    | .ok (some c) => .ok (some c)
    | .ok none => outerScan O target (pre ++ [l1]) rest

/-- `CondenseOnce(clause)` (source lines 120-171): scan all ordered
literal pairs; on the first candidate that subsumes the clause,
transplant the candidate's literal list into the clause, recompute the
cached counts and the weight, and report `true`; otherwise report
`false` with the clause untouched. -/
def CondenseOnce (O : Oracles L S) (cl : Clause L) :
    Except Unit (Bool × Clause L) :=
  match outerScan O cl.literals [] cl.literals with
  | .error e => .error e
  | .ok (some ls) =>
    .ok (true, { cl with
                  literals := ls
                  pos_lit_no := posCount O ls
                  neg_lit_no := negCount O ls
                  weight := O.weight ls })
  | .ok none => .ok (false, cl)

/-- The `for(swap = (l2 == l1) ? 1 : 0; swap < 2; swap++)` loop of
`CondenseOnceSet` (source lines 187-216).  When `l2` is a literal other
than `l1` (`selfFlag = false`) the two iterations attempt one-way
unification with `swap = false` and then `swap = true`; when `l2` is
`l1` itself (`selfFlag = true`, only reachable for a negative `l1`) the
single iteration unifies the two sides of the literal
(`EqnUnifySides`). -/
def setSwapIter (O : Oracles L S) (target base : List L) (l1 l2 : L)
    (selfFlag : Bool) : Nat → Nat → Option (List L)
  | 0, _ => none
  | budget + 1, swap =>
    if swap < 2 then
      let u := if selfFlag then O.unifySides l1 O.emptySubst
               else O.unifyOneWay l1 l2 (swap == 1) O.emptySubst
      match u with
      | some σ =>
        match buildCandidate O target base σ with
        | some c => some c
        | none => setSwapIter O target base l1 l2 selfFlag budget (swap + 1)
      | none => setSwapIter O target base l1 l2 selfFlag budget (swap + 1)
    else
      none

/-- Entry point of the swap loop of `CondenseOnceSet` at a given `swap`
value; the structural budget `2 - swap` is the number of remaining loop
iterations. -/
def setSwapLoop (O : Oracles L S) (target base : List L) (l1 l2 : L)
    (selfFlag : Bool) (swap : Nat) : Option (List L) :=
  setSwapIter O target base l1 l2 selfFlag (2 - swap) swap

/-- The inner scan of `CondenseOnceSet`
(`for(l2 = EqnIsNegative(l1) ? l1 : l1->next; l2; l2 = l2->next)`).
`selfFlag` is true exactly on the first step when the scan starts at
`l1` itself; the candidate base for the head `l2` is `pre ++ suf'`
(that is, all literals except `l2`). -/
def innerScanSet (O : Oracles L S) (target : List L) (l1 : L)
    (selfFlag : Bool) (pre suf : List L) : Option (List L) :=
  match suf with
  | [] => none
  | l2 :: suf' =>
    match setSwapLoop O target (pre ++ suf') l1 l2 selfFlag
        (if selfFlag then 1 else 0) with
    | some c => some c
    | none => innerScanSet O target l1 false (pre ++ [l2]) suf'

/-- The outer scan of `CondenseOnceSet`: for a negative `l1` the inner
scan starts at `l1` itself (the reflexive-collapse case), otherwise at
the literal after `l1`. -/
def outerScanSet (O : Oracles L S) (target : List L) (pre suf : List L) :
    Option (List L) :=
  match suf with
  | [] => none
  | l1 :: rest =>
    let r := if O.isNeg l1 then
               innerScanSet O target l1 true pre (l1 :: rest)
             else
               innerScanSet O target l1 false (pre ++ [l1]) rest
    match r with
    | some c => some c
    | none => outerScanSet O target (pre ++ [l1]) rest

/-- `CondenseOnceSet(clause)` (source lines 173-221): like
`CondenseOnce` but additionally allowing a negative literal to be
compared against itself via `EqnUnifySides`, and attempting one-way
unification in both directions for distinct pairs.  The candidate test
is the same `ClauseSubsumesClause` call as in `CondenseOnce`. -/
def CondenseOnceSet (O : Oracles L S) (cl : Clause L) : Bool × Clause L :=
  match outerScanSet O cl.literals [] cl.literals with
  | some ls =>
    (true, { cl with
              literals := ls
              pos_lit_no := posCount O ls
              neg_lit_no := negCount O ls
              weight := O.weight ls })
  | none => (false, cl)

/-- A successful candidate is a sorted normalization of the base list:
its length is at most the base's length, and it is in the image of
`sortLits`. -/
theorem buildCandidate_some {O : Oracles L S} {t b : List L} {σ : S}
    {c : List L} (h : buildCandidate O t b σ = some c) :
    c.length ≤ b.length ∧ ∃ nl, c = O.sortLits nl := by
  unfold buildCandidate at h
  by_cases hs : O.subsumes
      (O.sortLits (O.removeResolved (O.removeDuplicates (b.map (O.inst σ))))) t
  · simp only [hs, if_true] at h
    have hc : O.sortLits (O.removeResolved (O.removeDuplicates
        (b.map (O.inst σ)))) = c := Option.some.inj h
    refine ⟨?_, ⟨_, hc.symm⟩⟩
    calc c.length
        = (O.removeResolved (O.removeDuplicates (b.map (O.inst σ)))).length := by
          rw [← hc, O.sortLits_length]
      _ ≤ (O.removeDuplicates (b.map (O.inst σ))).length :=
          O.removeResolved_length _
      _ ≤ (b.map (O.inst σ)).length := O.removeDuplicates_length _
      _ = b.length := b.length_map _
  · simp [hs] at h

/-- The swap loop of `CondenseOnce` exits without effect once
`swap = true`. -/
theorem plainSwapLoop_swapTrue (O : Oracles L S) (t b : List L)
    (l1 l2 : L) : plainSwapLoop O t b l1 l2 true = .ok none :=
  rfl

/-- Unfolding of the swap loop of `CondenseOnce` at its entry
(`swap = false`): exactly one one-way unification is attempted, with
`swap = false`, and the error branch is not taken. -/
theorem plainSwapLoop_swapFalse (O : Oracles L S) (t b : List L)
    (l1 l2 : L) :
    plainSwapLoop O t b l1 l2 false =
      match O.unifyOneWay l1 l2 false O.emptySubst with
      | some σ =>
        match buildCandidate O t b σ with
        | some c => .ok (some c)
        | none => .ok none
      | none => .ok none := by
  unfold plainSwapLoop
  cases hu : O.unifyOneWay l1 l2 false O.emptySubst with
  | some σ =>
    cases hb : buildCandidate O t b σ with
    | some c => simp [plainSwapIter, plainSwapBody, hu, hb]
    | none => simp [plainSwapIter, plainSwapBody, hu, hb]
  | none => simp [plainSwapIter, plainSwapBody, hu]

/-- The swap loop never aborts, and a successful exit carries a built
candidate. -/
theorem plainSwapLoop_cases (O : Oracles L S) (t b : List L) (l1 l2 : L) :
    (∃ c, plainSwapLoop O t b l1 l2 false = .ok (some c) ∧
      ∃ σ, buildCandidate O t b σ = some c) ∨
    plainSwapLoop O t b l1 l2 false = .ok none := by
  rw [plainSwapLoop_swapFalse]
  cases hu : O.unifyOneWay l1 l2 false O.emptySubst with
  | some σ =>
    cases hb : buildCandidate O t b σ with
    | some c => exact Or.inl ⟨c, by simp [hb], σ, hb⟩
    | none =>
      right
      simp [hb]
  | none =>
    right
    rfl

/-- The inner scan of `CondenseOnce` never aborts, and on success its
result is a proper shrink of the scanned list and a `sortLits` image. -/
theorem innerScan_cases (O : Oracles L S) (t : List L) (l1 : L) :
    ∀ suf pre, (∃ c, innerScan O t l1 pre suf = .ok (some c) ∧
        c.length + 1 ≤ pre.length + suf.length ∧ ∃ nl, c = O.sortLits nl) ∨
      innerScan O t l1 pre suf = .ok none := by
  intro suf
  induction suf with
  | nil => intro pre; exact Or.inr rfl
  | cons l2 suf' ih =>
    intro pre
    rcases plainSwapLoop_cases O t (pre ++ suf') l1 l2 with
      ⟨c, hc, σ, hb⟩ | hn
    · refine Or.inl ⟨c, ?_, ?_, (buildCandidate_some hb).2⟩
      · unfold innerScan
        rw [hc]
      · have := (buildCandidate_some hb).1
        simp only [List.length_append, List.length_cons] at this ⊢
        omega
    · rcases ih (pre ++ [l2]) with ⟨c, hc, hlen, hnl⟩ | hn2
      · refine Or.inl ⟨c, ?_, ?_, hnl⟩
        · unfold innerScan
          rw [hn, hc]
        · simp only [List.length_append, List.length_cons,
            List.length_nil] at hlen ⊢
          omega
      · refine Or.inr ?_
        unfold innerScan
        rw [hn, hn2]

/-- The outer scan of `CondenseOnce` never aborts, and on success its
result is strictly shorter than the scanned literal list and a
`sortLits` image. -/
theorem outerScan_cases (O : Oracles L S) (t : List L) :
    ∀ suf pre, (∃ c, outerScan O t pre suf = .ok (some c) ∧
        c.length + 1 ≤ pre.length + suf.length ∧ ∃ nl, c = O.sortLits nl) ∨
      outerScan O t pre suf = .ok none := by
  intro suf
  induction suf with
  | nil => intro pre; exact Or.inr rfl
  | cons l1 rest ih =>
    intro pre
    rcases innerScan_cases O t l1 rest (pre ++ [l1]) with
      ⟨c, hc, hlen, hnl⟩ | hn
    · refine Or.inl ⟨c, ?_, ?_, hnl⟩
      · unfold outerScan
        rw [hc]
      · simp only [List.length_append, List.length_cons,
          List.length_nil] at hlen ⊢
        omega
    · rcases ih (pre ++ [l1]) with ⟨c, hc, hlen, hnl⟩ | hn2
      · refine Or.inl ⟨c, ?_, ?_, hnl⟩
        · unfold outerScan
          rw [hn, hc]
        · simp only [List.length_append, List.length_cons,
            List.length_nil] at hlen ⊢
          omega
      · refine Or.inr ?_
        unfold outerScan
        rw [hn, hn2]

/-- A successful `CondenseOnce` strictly shrinks the literal list, and
the new literal list is in the image of `sortLits`. -/
theorem condenseOnce_true {O : Oracles L S} {cl cl2 : Clause L}
    (h : CondenseOnce O cl = .ok (true, cl2)) :
    cl2.literals.length < cl.literals.length ∧
      ∃ nl, cl2.literals = O.sortLits nl := by
  unfold CondenseOnce at h
  rcases outerScan_cases O cl.literals cl.literals [] with
    ⟨c, hc, hlen, hnl⟩ | hn
  · rw [hc] at h
    have hc2 : cl2.literals = c := by
      cases h
      rfl
    rw [hc2]
    constructor
    · simpa using hlen
    · exact hnl
  · rw [hn] at h
    cases h

/-- An unsuccessful `CondenseOnce` returns the clause unchanged. -/
theorem condenseOnce_false {O : Oracles L S} {cl x : Clause L}
    (h : CondenseOnce O cl = .ok (false, x)) : x = cl := by
  unfold CondenseOnce at h
  rcases outerScan_cases O cl.literals cl.literals [] with
    ⟨c, hc, _, _⟩ | hn
  · rw [hc] at h
    cases h
  · rw [hn] at h
    cases h
    rfl

/-- `CondenseOnce` never aborts: the `Error("SWAP = TRUE", ...)` branch
is unreachable. -/
theorem condenseOnce_ok (O : Oracles L S) (cl : Clause L) :
    ∃ r, CondenseOnce O cl = .ok r := by
  unfold CondenseOnce
  rcases outerScan_cases O cl.literals cl.literals [] with
    ⟨c, hc, _, _⟩ | hn
  · rw [hc]
    exact ⟨_, rfl⟩
  · rw [hn]
    exact ⟨_, rfl⟩

/-- The `while(CondenseOnce(clause))` loop of `Condense` (source lines
285-291), instrumented with the number of successful `CondenseOnce`
rounds.  It terminates because every successful round strictly shrinks
the literal list. -/
def condenseLoopR (O : Oracles L S) (cl : Clause L) :
    Except Unit (Bool × Clause L × Nat) :=
  match h : CondenseOnce O cl with
  | .error e => .error e
  | .ok (false, _) => .ok (false, cl, 0)
  | .ok (true, cl2) =>
    match condenseLoopR O cl2 with
    | .error e => .error e
    | .ok (_, c, n) => .ok (true, c, n + 1)
termination_by cl.literals.length
decreasing_by exact (condenseOnce_true h).1

/-- Unfolding of the `while` loop when `CondenseOnce` reports no
change: the loop exits at once, leaving the clause as it is. -/
theorem condenseLoopR_of_false {O : Oracles L S} {cl x : Clause L}
    (h : CondenseOnce O cl = .ok (false, x)) :
    condenseLoopR O cl = .ok (false, cl, 0) := by
  unfold condenseLoopR
  split <;> simp_all

/-- Unfolding of the `while` loop when `CondenseOnce` succeeds: the
loop continues on the reduced clause. -/
theorem condenseLoopR_of_true {O : Oracles L S} {cl cl2 : Clause L}
    (h : CondenseOnce O cl = .ok (true, cl2)) :
    condenseLoopR O cl =
      match condenseLoopR O cl2 with
      | .error e => .error e
      | .ok (_, c, n) => .ok (true, c, n + 1) := by
  conv_lhs => unfold condenseLoopR
  split <;> simp_all

/-- Invariant of the `while(CondenseOnce(clause))` loop: it never
aborts, performs at most `|literals|` successful rounds, stops in a
clause on which `CondenseOnce` reports no change, and its result's
literal list is either the input's or an image of `sortLits`. -/
theorem condenseLoopR_spec (O : Oracles L S) :
    ∀ (N : Nat) (cl : Clause L), cl.literals.length ≤ N →
      ∃ res c n, condenseLoopR O cl = .ok (res, c, n) ∧
        n ≤ cl.literals.length ∧
        CondenseOnce O c = .ok (false, c) ∧
        (c = cl ∨ ∃ nl, c.literals = O.sortLits nl) := by
  intro N
  induction N with
  | zero =>
    intro cl hlen
    obtain ⟨⟨b, c⟩, hr⟩ := condenseOnce_ok O cl
    cases b with
    | true => exact absurd (condenseOnce_true hr).1 (by omega)
    | false =>
      have hc := condenseOnce_false hr
      rw [hc] at hr
      exact ⟨false, cl, 0, condenseLoopR_of_false hr, Nat.zero_le _,
        hr, Or.inl rfl⟩
  | succ N ih =>
    intro cl hlen
    obtain ⟨⟨b, c⟩, hr⟩ := condenseOnce_ok O cl
    cases b with
    | false =>
      have hc := condenseOnce_false hr
      rw [hc] at hr
      exact ⟨false, cl, 0, condenseLoopR_of_false hr, Nat.zero_le _,
        hr, Or.inl rfl⟩
    | true =>
      have hlt := (condenseOnce_true hr).1
      have him := (condenseOnce_true hr).2
      obtain ⟨res, c2, n, hloop, hn, hfix, him2⟩ := ih c (by omega)
      refine ⟨true, c2, n + 1, ?_, by omega, hfix, ?_⟩
      · rw [condenseLoopR_of_true hr, hloop]
      · rcases him2 with rfl | h2
        · exact Or.inr him
        · exact Or.inr h2

/-- If `CondenseOnce` found no reduction, the underlying pair scan came
back empty. -/
theorem condenseOnce_false_scan {O : Oracles L S} {c : Clause L}
    (h : CondenseOnce O c = .ok (false, c)) :
    outerScan O c.literals [] c.literals = .ok none := by
  unfold CondenseOnce at h
  rcases outerScan_cases O c.literals c.literals [] with ⟨cc, hc, _, _⟩ | hn
  · rw [hc] at h
    simp at h
  · exact hn

/-- `CondenseOnce` reads a clause only through its literal list, so the
no-change outcome transfers along literal-list equality. -/
theorem condenseOnce_congr_literals {O : Oracles L S} {c c2 : Clause L}
    (hl : c2.literals = c.literals)
    (h : CondenseOnce O c = .ok (false, c)) :
    CondenseOnce O c2 = .ok (false, c2) := by
  have hs := condenseOnce_false_scan h
  unfold CondenseOnce
  rw [hl, hs]

/-- `Condense(clause)` (source lines 271-301): bump the attempt counter;
unless the clause has more than one positive or more than one negative
literal do nothing; otherwise recompute the weight, sort the literals
into subsumption order, iterate `CondenseOnce` to a fixpoint, and on
overall success bump the success counter and push the condensation
derivation step. -/
def Condense (O : Oracles L S) (st : Stats) (cl : Clause L) :
    Except Unit (Bool × Clause L × Stats) :=
  let st1 := bumpAttempts st
  if 1 < cl.pos_lit_no ∨ 1 < cl.neg_lit_no then
    let cl2 := { cl with
                  weight := O.weight cl.literals
                  literals := O.sortLits cl.literals }
    match condenseLoopR O cl2 with
    | .error e => .error e
    | .ok (res, c, _) =>
      if res then .ok (true, pushDeriv c, bumpSuccesses st1)
      else .ok (false, c, st1)
  else
    .ok (false, cl, st1)

/-- The work-list loop of `do_condense_lin` (source lines 67-81).  The
literal stack pops the literals in reverse clause order, so the loop is
phrased over `revPre`, the reversed not-yet-processed prefix of the
(sorted) clause; `kept` holds the already-processed literals that
survived.  At the step for `lit` the live clause is
`revPre.reverse ++ [lit] ++ kept` with `lit` flagged `EPIsCondensed`;
following the spec, the flag is threaded as an explicit exclusion, so
`ClauseSubsumesClauseModuloSetEq(orig, cl)` is modelled as
`subsumesModSetEq orig (revPre.reverse ++ kept)` — the snapshot `orig`
is the candidate (first) argument, the live clause minus the flagged
literal the target (second) argument.  On success the literal is
removed (not added to `kept`), on failure the flag is cleared and the
literal kept. -/
def linRecAux (O : Oracles L S) (orig : List L) :
    List L → List L → Bool → List L × Bool
  | [], kept, chg => (kept, chg)
  | lit :: revPre, kept, chg =>
    if O.subsumesModSetEq orig (revPre.reverse ++ kept) then
      linRecAux O orig revPre kept true
    else
      linRecAux O orig revPre (lit :: kept) chg

/-- `do_condense_lin(cl)` (source lines 58-99): sort the clause, take a
flat-copy snapshot `orig` and a second copy `dbg_cpy`, run the one-pass
work-list loop against the snapshot, then run `Condense` on `dbg_cpy`
and compare literal counts; a mismatch only prints a diagnostic (the
final `Bool` of the result records whether the diagnostic was
emitted — execution continues either way).  The cached counts and the
weight of the mutated clause are recomputed; `ClauseRemoveLiteral` is
not part of the source file and is modelled from the spec's invariant
that counts and weight are kept consistent with the literal list.
Statistics move only through the embedded debug `Condense` call. -/
def do_condense_lin (O : Oracles L S) (st : Stats) (cl : Clause L) :
    Except Unit (Bool × Clause L × Stats × Bool) :=
  let sorted := O.sortLits cl.literals
  let pass := linRecAux O sorted sorted.reverse [] false
  let ncl := { cl with
                literals := pass.1
                pos_lit_no := posCount O pass.1
                neg_lit_no := negCount O pass.1
                weight := O.weight pass.1 }
  let dbg := { cl with literals := sorted }
  match Condense O st dbg with
  | .error e => .error e
  | .ok (_, dcl, st') =>
    .ok (pass.2, ncl, st', dcl.literals.length != ncl.literals.length)

/-- `CondenseSet(clause)` (source lines 238-256): bump the attempt
counter, and unless the clause has more than one positive or more than
one negative literal do nothing; otherwise run `CondenseOnceSet`
exactly once and, on success, bump the success counter and push the
condensation derivation step. -/
def CondenseSet (O : Oracles L S) (st : Stats) (cl : Clause L) :
    Bool × Clause L × Stats :=
  let st1 := bumpAttempts st
  if 1 < cl.pos_lit_no ∨ 1 < cl.neg_lit_no then
    let r := CondenseOnceSet O cl
    if r.1 then (true, pushDeriv r.2, bumpSuccesses st1)
    else (false, cl, st1)
  else
    (false, cl, st1)

/-- The oracle record with only the set-modulo subsumption predicate
(`ClauseSubsumesClauseModuloSet`) replaced.  A computation that never
consults that predicate is invariant under this replacement. -/
def replaceModSet (O : Oracles L S) (f : List L → List L → Bool) :
    Oracles L S :=
  { O with subsumesModSetEq := f }

/-- Field computation rules for `replaceModSet`. -/
theorem replaceModSet_emptySubst (O : Oracles L S)
    (f : List L → List L → Bool) :
    (replaceModSet O f).emptySubst = O.emptySubst := rfl

/-- Field computation rule for `replaceModSet`. -/
theorem replaceModSet_unifyOneWay (O : Oracles L S)
    (f : List L → List L → Bool) :
    (replaceModSet O f).unifyOneWay = O.unifyOneWay := rfl

/-- Field computation rule for `replaceModSet`. -/
theorem replaceModSet_unifySides (O : Oracles L S)
    (f : List L → List L → Bool) :
    (replaceModSet O f).unifySides = O.unifySides := rfl

/-- Candidate construction never consults the set-modulo predicate. -/
theorem buildCandidate_replaceModSet (O : Oracles L S)
    (f : List L → List L → Bool) (t b : List L) (σ : S) :
    buildCandidate (replaceModSet O f) t b σ = buildCandidate O t b σ :=
  rfl

/-- The swap loop of `CondenseOnce` never consults the set-modulo
predicate. -/
theorem plainSwapLoop_replaceModSet (O : Oracles L S)
    (f : List L → List L → Bool) (t b : List L) (l1 l2 : L)
    (swap : Bool) :
    plainSwapLoop (replaceModSet O f) t b l1 l2 swap =
      plainSwapLoop O t b l1 l2 swap := by
  cases swap
  · rw [plainSwapLoop_swapFalse, plainSwapLoop_swapFalse]
    rfl
  · rw [plainSwapLoop_swapTrue, plainSwapLoop_swapTrue]

/-- The inner scan of `CondenseOnce` never consults the set-modulo
predicate. -/
theorem innerScan_replaceModSet (O : Oracles L S)
    (f : List L → List L → Bool) (t : List L) (l1 : L) :
    ∀ suf pre, innerScan (replaceModSet O f) t l1 pre suf =
      innerScan O t l1 pre suf := by
  intro suf
  induction suf with
  | nil => intro pre; rfl
  | cons l2 suf' ih =>
    intro pre
    unfold innerScan
    rw [plainSwapLoop_replaceModSet]
    cases h : plainSwapLoop O t (pre ++ suf') l1 l2 false with
    | error e => rfl
    | ok o =>
      cases o with
      | some c => rfl
      | none => exact ih (pre ++ [l2])

/-- The outer scan of `CondenseOnce` never consults the set-modulo
predicate. -/
theorem outerScan_replaceModSet (O : Oracles L S)
    (f : List L → List L → Bool) (t : List L) :
    ∀ suf pre, outerScan (replaceModSet O f) t pre suf =
      outerScan O t pre suf := by
  intro suf
  induction suf with
  | nil => intro pre; rfl
  | cons l1 rest ih =>
    intro pre
    unfold outerScan
    rw [innerScan_replaceModSet]
    cases h : innerScan O t l1 (pre ++ [l1]) rest with
    | error e => rfl
    | ok o =>
      cases o with
      | some c => rfl
      | none => exact ih (pre ++ [l1])

/-- `CondenseOnce` never consults the set-modulo predicate. -/
theorem condenseOnce_replaceModSet (O : Oracles L S)
    (f : List L → List L → Bool) (cl : Clause L) :
    CondenseOnce (replaceModSet O f) cl = CondenseOnce O cl := by
  unfold CondenseOnce
  rw [outerScan_replaceModSet]
  cases h : outerScan O cl.literals [] cl.literals with
  | error e => rfl
  | ok o =>
    cases o with
    | some ls => rfl
    | none => rfl

/-- The iterated swap loop of `CondenseOnceSet` never consults the
set-modulo predicate. -/
theorem setSwapIter_replaceModSet (O : Oracles L S)
    (f : List L → List L → Bool) (t b : List L) (l1 l2 : L) (s : Bool) :
    ∀ budget swap,
      setSwapIter (replaceModSet O f) t b l1 l2 s budget swap =
        setSwapIter O t b l1 l2 s budget swap := by
  intro budget
  induction budget with
  | zero => intro swap; rfl
  | succ k ih =>
    intro swap
    unfold setSwapIter
    simp only [replaceModSet_unifySides, replaceModSet_unifyOneWay,
      replaceModSet_emptySubst, buildCandidate_replaceModSet, ih]

/-- The swap loop of `CondenseOnceSet` never consults the set-modulo
predicate. -/
theorem setSwapLoop_replaceModSet (O : Oracles L S)
    (f : List L → List L → Bool) (t b : List L) (l1 l2 : L) (s : Bool)
    (swap : Nat) :
    setSwapLoop (replaceModSet O f) t b l1 l2 s swap =
      setSwapLoop O t b l1 l2 s swap :=
  setSwapIter_replaceModSet O f t b l1 l2 s (2 - swap) swap

/-- The inner scan of `CondenseOnceSet` never consults the set-modulo
predicate. -/
theorem innerScanSet_replaceModSet (O : Oracles L S)
    (f : List L → List L → Bool) (t : List L) (l1 : L) :
    ∀ suf s pre, innerScanSet (replaceModSet O f) t l1 s pre suf =
      innerScanSet O t l1 s pre suf := by
  intro suf
  induction suf with
  | nil => intro s pre; rfl
  | cons l2 suf' ih =>
    intro s pre
    unfold innerScanSet
    rw [setSwapLoop_replaceModSet]
    cases h : setSwapLoop O t (pre ++ suf') l1 l2 s
        (if s then 1 else 0) with
    | some c => rfl
    | none => exact ih false (pre ++ [l2])

/-- The outer scan of `CondenseOnceSet` never consults the set-modulo
predicate. -/
theorem outerScanSet_replaceModSet (O : Oracles L S)
    (f : List L → List L → Bool) (t : List L) :
    ∀ suf pre, outerScanSet (replaceModSet O f) t pre suf =
      outerScanSet O t pre suf := by
  intro suf
  induction suf with
  | nil => intro pre; rfl
  | cons l1 rest ih =>
    intro pre
    unfold outerScanSet
    have hneg : (replaceModSet O f).isNeg = O.isNeg := rfl
    rw [hneg, innerScanSet_replaceModSet, innerScanSet_replaceModSet]
    cases hn : O.isNeg l1 with
    | true =>
      simp only [hn, if_true]
      cases h : innerScanSet O t l1 true pre (l1 :: rest) with
      | some c => rfl
      | none => exact ih (pre ++ [l1])
    | false =>
      simp only [hn, Bool.false_eq_true, if_false]
      cases h : innerScanSet O t l1 false (pre ++ [l1]) rest with
      | some c => rfl
      | none => exact ih (pre ++ [l1])

/-- `CondenseOnceSet` never consults the set-modulo predicate. -/
theorem condenseOnceSet_replaceModSet (O : Oracles L S)
    (f : List L → List L → Bool) (cl : Clause L) :
    CondenseOnceSet (replaceModSet O f) cl = CondenseOnceSet O cl := by
  unfold CondenseOnceSet
  rw [outerScanSet_replaceModSet]
  cases h : outerScanSet O cl.literals [] cl.literals with
  | some ls => rfl
  | none => rfl

/-- `CondenseSet` never consults the set-modulo predicate. -/
theorem condenseSet_replaceModSet (O : Oracles L S)
    (f : List L → List L → Bool) (st : Stats) (cl : Clause L) :
    CondenseSet (replaceModSet O f) st cl = CondenseSet O st cl := by
  unfold CondenseSet
  rw [condenseOnceSet_replaceModSet]

/-- The `while` loop of `Condense` never consults the set-modulo
predicate. -/
theorem condenseLoopR_replaceModSet (O : Oracles L S)
    (f : List L → List L → Bool) :
    ∀ (N : Nat) (cl : Clause L), cl.literals.length ≤ N →
      condenseLoopR (replaceModSet O f) cl = condenseLoopR O cl := by
  intro N
  induction N with
  | zero =>
    intro cl hlen
    obtain ⟨⟨b, c⟩, hr⟩ := condenseOnce_ok O cl
    cases b with
    | true => exact absurd (condenseOnce_true hr).1 (by omega)
    | false =>
      have hc := condenseOnce_false hr
      rw [hc] at hr
      have hr2 : CondenseOnce (replaceModSet O f) cl = .ok (false, cl) := by
        rw [condenseOnce_replaceModSet]
        exact hr
      rw [condenseLoopR_of_false hr2, condenseLoopR_of_false hr]
  | succ N ih =>
    intro cl hlen
    obtain ⟨⟨b, c⟩, hr⟩ := condenseOnce_ok O cl
    cases b with
    | false =>
      have hc := condenseOnce_false hr
      rw [hc] at hr
      have hr2 : CondenseOnce (replaceModSet O f) cl = .ok (false, cl) := by
        rw [condenseOnce_replaceModSet]
        exact hr
      rw [condenseLoopR_of_false hr2, condenseLoopR_of_false hr]
    | true =>
      have hr2 : CondenseOnce (replaceModSet O f) cl = .ok (true, c) := by
        rw [condenseOnce_replaceModSet]
        exact hr
      have hlt := (condenseOnce_true hr).1
      rw [condenseLoopR_of_true hr2, condenseLoopR_of_true hr,
        ih c (by omega)]

/-- `Condense` never consults the set-modulo predicate. -/
theorem condense_replaceModSet (O : Oracles L S)
    (f : List L → List L → Bool) (st : Stats) (cl : Clause L) :
    Condense (replaceModSet O f) st cl = Condense O st cl := by
  unfold Condense
  by_cases hg : 1 < cl.pos_lit_no ∨ 1 < cl.neg_lit_no
  · simp only [if_pos hg]
    have h1 : (replaceModSet O f).weight = O.weight := rfl
    have h2 : (replaceModSet O f).sortLits = O.sortLits := rfl
    rw [h1, h2, condenseLoopR_replaceModSet O f _ _ (le_refl _)]
  · simp only [if_neg hg]

/-- The single-shot pipeline the spec ascribes to `CondenseSet`: bump
the attempt counter, apply the polarity-count guard, run the quadratic
set-variant scan `CondenseOnceSet` exactly once, and do the counter and
derivation bookkeeping on success. -/
def condenseSetSpec (O : Oracles L S) (st : Stats) (cl : Clause L) :
    Bool × Clause L × Stats :=
  if 1 < cl.pos_lit_no ∨ 1 < cl.neg_lit_no then
    match CondenseOnceSet O cl with
    | (true, c) => (true, pushDeriv c, bumpSuccesses (bumpAttempts st))
    | (false, _) => (false, cl, bumpAttempts st)
  else
    (false, cl, bumpAttempts st)

/-- `CondenseSet` coincides with the single-shot pipeline. -/
theorem condenseSet_eq_spec (O : Oracles L S) (st : Stats)
    (cl : Clause L) : CondenseSet O st cl = condenseSetSpec O st cl := by
  unfold CondenseSet condenseSetSpec
  by_cases hg : 1 < cl.pos_lit_no ∨ 1 < cl.neg_lit_no
  · simp only [if_pos hg]
    cases h : CondenseOnceSet O cl with
    | mk b c =>
      cases b with
      | true => rfl
      | false => rfl
  · simp only [if_neg hg]

/-- Canonical subsumption order used by the concrete oracle instances
below: ascending insertion sort on literal codes. -/
def sortNat (l : List Nat) : List Nat := List.insertionSort (· ≤ ·) l

/-- Sorting preserves the number of literals. -/
theorem sortNat_length (l : List Nat) : (sortNat l).length = l.length :=
  List.length_insertionSort _ l

/-- Sorting is idempotent. -/
theorem sortNat_idem (l : List Nat) : sortNat (sortNat l) = sortNat l :=
  (List.sorted_insertionSort _ l).insertionSort_eq

/-- Set containment of literal codes: the subsumption verdict under the
identity substitution, ignoring order and multiplicity. -/
def containsAll (c t : List Nat) : Bool := c.all (fun x => t.contains x)

/-- Order-respecting sublist test on literal codes: an order-sensitive
(positional) subsumption verdict under the identity substitution. -/
def sublistB : List Nat → List Nat → Bool
  | [], _ => true
  | _ :: _, [] => false
  | a :: as, b :: bs => if a = b then sublistB as bs else sublistB (a :: as) bs

/-- A concrete oracle assembly over literal codes (`L = Nat`) and
substitution codes (`S = Nat`, `0` the empty substitution).  Duplicate
removal is list deduplication; the instances below contain no trivially
resolved equations, so tautology removal is the identity; weight is the
literal count; the subsumption order is ascending code order. -/
def mkOracles (uni : Nat → Nat → Bool → Nat → Option Nat)
    (usides : Nat → Nat → Option Nat) (ins : Nat → Nat → Nat)
    (subs : List Nat → List Nat → Bool)
    (modset : List Nat → List Nat → Bool)
    (neg : Nat → Bool) : Oracles Nat Nat where
  emptySubst := 0
  unifyOneWay := uni
  unifySides := usides
  inst := ins
  subsumes := subs
  subsumesModSetEq := modset
  removeDuplicates := List.dedup
  removeResolved := id
  weight := List.length
  sortLits := sortNat
  isNeg := neg
  removeDuplicates_length := fun l => (List.dedup_sublist l).length_le
  removeResolved_length := fun l => Nat.le_refl _
  sortLits_length := sortNat_length
  sortLits_idem := sortNat_idem

/-- The inert oracle: no pair of literals unifies, nothing subsumes. -/
def OTriv : Oracles Nat Nat :=
  mkOracles (fun _ _ _ _ => none) (fun _ _ => none) (fun _ l => l)
    (fun _ _ => false) (fun _ _ => false) (fun _ => false)

/-- Oracle answers for the clause `P(x1) ∨ P(x2) ∨ P(a)`, coding the
literals `P(x1) ↦ 1`, `P(x2) ↦ 2`, `P(a) ↦ 3`.  One-way unification
succeeds exactly for `P(x1)` against `P(x2)` (substitution code `1`,
standing for `x1 := x2`) and for `P(x2)` against `P(a)` (substitution
code `2`, standing for `x2 := a`); instantiation maps the literal codes
accordingly; subsumption of a ground-or-renamed candidate against the
clause is set containment of codes, matching the real verdicts at every
consulted pair. -/
def Oc8 : Oracles Nat Nat :=
  mkOracles
    (fun a b sw _ =>
      if sw = false ∧ a = 1 ∧ b = 2 then some 1
      else if sw = false ∧ a = 2 ∧ b = 3 then some 2
      else none)
    (fun _ _ => none)
    (fun σ l =>
      if σ = 1 ∧ l = 1 then 2
      else if σ = 2 ∧ l = 2 then 3
      else l)
    containsAll containsAll (fun _ => false)

/-- The clause `P(x1) ∨ P(x2) ∨ P(a)` for `Oc8`: three positive
literals, cached counts and weight consistent. -/
def cl0 : Clause Nat := ⟨[1, 2, 3], 3, 0, 3, []⟩

/-- Oracle answers for the clause `P(x,y) ∨ P(a,b) ∨ P(x,b)`, coding
`P(x,y) ↦ 1`, `P(a,b) ↦ 2`, `P(x,b) ↦ 3`.  One-way unification succeeds
for `P(x,y)` against `P(a,b)` (substitution code `1`, standing for
`x := a, y := b`); under it both `P(x,y)` and `P(x,b)` instantiate to
`P(a,b)`, so the candidate collapses to a single literal after
duplicate removal; subsumption is set containment of codes, matching
the real verdicts at every consulted pair. -/
def Oc7 : Oracles Nat Nat :=
  mkOracles
    (fun a b sw _ => if sw = false ∧ a = 1 ∧ b = 2 then some 1 else none)
    (fun _ _ => none)
    (fun σ l => if σ = 1 ∧ (l = 1 ∨ l = 3) then 2 else l)
    containsAll containsAll (fun _ => false)

/-- The clause `P(x,y) ∨ P(a,b) ∨ P(x,b)` for `Oc7`. -/
def cl7 : Clause Nat := ⟨[1, 2, 3], 3, 0, 3, []⟩

/-- Oracle instance distinguishing the two subsumption strengths: the
plain (positional) test is the order-respecting sublist check, the
set-modulo test is order-ignoring containment; the literal list
`[3, 2, 5]` is deliberately not in ascending order (the set driver does
not re-sort), so the sorted candidate `[2, 3]` is contained in the
clause as a set but is not an ordered sublist of it.  One-way
unification succeeds exactly for the pair of codes `3` and `5` in the
unswapped direction. -/
def O2ex : Oracles Nat Nat :=
  mkOracles
    (fun a b sw _ => if sw = false ∧ a = 3 ∧ b = 5 then some 0 else none)
    (fun _ _ => none) (fun _ l => l) sublistB containsAll (fun _ => false)

/-- The clause for `O2ex`: literal codes `[3, 2, 5]`, all positive. -/
def cl2ex : Clause Nat := ⟨[3, 2, 5], 3, 0, 3, []⟩

/-- Oracle instance probing the argument order of the
`ClauseSubsumesClauseModuloSetEq(orig, cl)` call in `do_condense_lin`:
its set-and-equality-modulo test answers true exactly when the
candidate (first) argument has two literals, i.e. exactly when the
two-literal snapshot is passed first; unification and plain subsumption
are inert. -/
def O3ex : Oracles Nat Nat :=
  mkOracles (fun _ _ _ _ => none) (fun _ _ => none) (fun _ l => l)
    (fun _ _ => false) (fun c _ => c.length == 2) (fun l => l == 7)

/-- The clause for `O3ex`: one positive literal (code `5`) and one
negative literal (code `7`). -/
def cl3ex : Clause Nat := ⟨[5, 7], 1, 1, 2, []⟩

/-- Unfolding of `Condense` when the polarity-count guard passes. -/
theorem condense_of_guard_true {O : Oracles L S} {st : Stats}
    {cl : Clause L} (hg : 1 < cl.pos_lit_no ∨ 1 < cl.neg_lit_no) :
    Condense O st cl =
      match condenseLoopR O { cl with
          weight := O.weight cl.literals
          literals := O.sortLits cl.literals } with
      | .error e => .error e
      | .ok (res, c, _) =>
        if res then .ok (true, pushDeriv c, bumpSuccesses (bumpAttempts st))
        else .ok (false, c, bumpAttempts st) := by
  simp only [Condense]
  rw [if_pos hg]

/-- Unfolding of `Condense` when the polarity-count guard fails: the
clause is left untouched and only the attempt counter moves. -/
theorem condense_of_guard_false {O : Oracles L S} {st : Stats}
    {cl : Clause L} (hg : ¬(1 < cl.pos_lit_no ∨ 1 < cl.neg_lit_no)) :
    Condense O st cl = .ok (false, cl, bumpAttempts st) := by
  simp only [Condense]
  rw [if_neg hg]

/-- `Condense` never aborts, and bumps the attempt counter by exactly
one on every invocation. -/
theorem condense_ok (O : Oracles L S) (st : Stats) (cl : Clause L) :
    ∃ b c st2, Condense O st cl = .ok (b, c, st2) ∧
      st2.attempts = st.attempts + 1 := by
  by_cases hg : 1 < cl.pos_lit_no ∨ 1 < cl.neg_lit_no
  · rw [condense_of_guard_true hg]
    obtain ⟨res, c, n, hloop, _, _, _⟩ :=
      condenseLoopR_spec O ({ cl with
        weight := O.weight cl.literals
        literals := O.sortLits cl.literals } : Clause L).literals.length _
        (le_refl _)
    rw [hloop]
    cases res
    · exact ⟨false, c, bumpAttempts st, rfl, rfl⟩
    · exact ⟨true, pushDeriv c, bumpSuccesses (bumpAttempts st), rfl, rfl⟩
  · rw [condense_of_guard_false hg]
    exact ⟨false, cl, bumpAttempts st, rfl, rfl⟩

/-- Running `Condense` on a clause whose literal list is already in
canonical order and on which the pair scan finds nothing reports no
change and keeps the literal list. -/
theorem condense_on_fixed (O : Oracles L S) (st2 : Stats)
    (cl1 : Clause L) (hsort : O.sortLits cl1.literals = cl1.literals)
    (hscan : outerScan O cl1.literals [] cl1.literals = .ok none) :
    ∃ cl2 st3, Condense O st2 cl1 = .ok (false, cl2, st3) ∧
      cl2.literals = cl1.literals := by
  by_cases hg2 : 1 < cl1.pos_lit_no ∨ 1 < cl1.neg_lit_no
  · rw [condense_of_guard_true hg2]
    set clS := { cl1 with
      weight := O.weight cl1.literals
      literals := O.sortLits cl1.literals } with hdef
    have h1 : clS.literals = cl1.literals := hsort
    have hfix2 : CondenseOnce O clS = .ok (false, clS) := by
      unfold CondenseOnce
      rw [h1, hscan]
    rw [condenseLoopR_of_false hfix2]
    exact ⟨clS, bumpAttempts st2, rfl, h1⟩
  · rw [condense_of_guard_false hg2]
    exact ⟨cl1, bumpAttempts st2, rfl, rfl⟩

/-- First reduction of `CondenseOnce` on the `Oc8` clause
`P(x1) ∨ P(x2) ∨ P(a)`: it condenses to `P(x2) ∨ P(a)`. -/
theorem oc8_once1 : CondenseOnce Oc8 cl0 =
    .ok (true, ⟨[2, 3], 2, 0, 2, []⟩) := rfl

/-- Second reduction on `P(x2) ∨ P(a)`: it condenses to `P(a)`. -/
theorem oc8_once2 : CondenseOnce Oc8 ⟨[2, 3], 2, 0, 2, []⟩ =
    .ok (true, ⟨[3], 1, 0, 1, []⟩) := rfl

/-- The single literal `P(a)` admits no further reduction. -/
theorem oc8_once3 : CondenseOnce Oc8 ⟨[3], 1, 0, 1, []⟩ =
    .ok (false, ⟨[3], 1, 0, 1, []⟩) := rfl

/-- The `while` loop on the `Oc8` clause performs two successful
rounds and stops at the single literal `P(a)`. -/
theorem oc8_loop : condenseLoopR Oc8 cl0 =
    .ok (true, ⟨[3], 1, 0, 1, []⟩, 2) := by
  rw [condenseLoopR_of_true oc8_once1, condenseLoopR_of_true oc8_once2,
    condenseLoopR_of_false oc8_once3]

/-- Full run of `Condense` on the `Oc8` clause: condensed to `P(a)`,
derivation step pushed, both counters bumped. -/
theorem oc8_run : Condense Oc8 ⟨0, 0⟩ cl0 =
    .ok (true, ⟨[3], 1, 0, 1, [1]⟩, ⟨1, 1⟩) := by
  rw [condense_of_guard_true (by decide)]
  have hl : condenseLoopR Oc8 { cl0 with
      weight := Oc8.weight cl0.literals
      literals := Oc8.sortLits cl0.literals } =
      .ok (true, ⟨[3], 1, 0, 1, []⟩, 2) := oc8_loop
  rw [hl]
  rfl

/-- C2 (counterexample): in `CondenseOnceSet`, after the one-way
unification of the codes `3` and `5` succeeds, the candidate
(`sortLits [3,2] = [2,3]`) does pass the set-modulo subsumption test
against the original clause `[3,2,5]`, yet the scan reports no
reduction, because the test actually wired in (source line 199) is the
exact positional `ClauseSubsumesClause`, which rejects the reordered
candidate.  Had the set-modulo variant been consulted, the result would
have been a successful reduction. -/
theorem claim_C2_counterexample :
    CondenseOnceSet O2ex cl2ex = (false, cl2ex) ∧
    O2ex.unifyOneWay 3 5 false O2ex.emptySubst = some 0 ∧
    buildCandidate O2ex cl2ex.literals [3, 2] 0 = none ∧
    O2ex.subsumesModSetEq (O2ex.sortLits [3, 2]) cl2ex.literals = true ∧
    O2ex.subsumes (O2ex.sortLits [3, 2]) cl2ex.literals = false := by
  decide

/-- C2 (amended): in `CondenseOnceSet` a successful unification's
candidate is tested with the exact positional subsumption test
`ClauseSubsumesClause`, not the set-modulo variant: the scan's result
is invariant under arbitrary replacement of the set-modulo oracle. -/
theorem claim_C2_amended : ∀ (O : Oracles L S)
    (f : List L → List L → Bool) (cl : Clause L),
    CondenseOnceSet (replaceModSet O f) cl = CondenseOnceSet O cl :=
  condenseOnceSet_replaceModSet

/-- C3 (counterexample): `do_condense_lin` passes the untouched
snapshot as the FIRST (candidate) argument of
`ClauseSubsumesClauseModuloSetEq` and the live clause minus the flagged
literal as the second (target), not the other way round as the claim
states.  With an oracle answering true exactly when its first argument
has two literals, on the clause `[5, 7]` both tests the claim predicts
(`[5]` against `[5,7]`, then `[]` against `[5,7]`) answer false, so
under the claimed direction nothing would be removed; the actual code
removes both literals and reports a change. -/
theorem claim_C3_counterexample :
    do_condense_lin O3ex ⟨0, 0⟩ cl3ex =
      .ok (true, ⟨[], 0, 0, 0, []⟩, ⟨1, 0⟩, true) ∧
    O3ex.subsumesModSetEq [5] [5, 7] = false ∧
    O3ex.subsumesModSetEq [] [5, 7] = false ∧
    O3ex.subsumesModSetEq [5, 7] [5] = true ∧
    O3ex.subsumesModSetEq [5, 7] [] = true :=
  ⟨rfl, rfl, rfl, rfl, rfl⟩

/-- C3 (amended): for every literal popped from the work list of
`do_condense_lin`, the literal is flagged and then the untouched
snapshot `orig` — as the candidate, first argument — is tested for
subsuming the live clause with the flagged literal excluded — as the
target, second argument — under the set-and-equality-modulo oracle; on
success the literal is removed, on failure the flag is cleared and the
literal kept; and the function's result is precisely the outcome of
this pass over the sorted literals together with its change flag. -/
theorem claim_C3_amended :
    (∀ (O : Oracles L S) (orig : List L) (lit : L)
      (revPre kept : List L) (chg : Bool),
      linRecAux O orig (lit :: revPre) kept chg =
        if O.subsumesModSetEq orig (revPre.reverse ++ kept) then
          linRecAux O orig revPre kept true
        else linRecAux O orig revPre (lit :: kept) chg) ∧
    (∀ (O : Oracles L S) (st : Stats) (cl : Clause L), ∃ cl1 st2 d,
      do_condense_lin O st cl = .ok
        ((linRecAux O (O.sortLits cl.literals)
            (O.sortLits cl.literals).reverse [] false).2, cl1, st2, d) ∧
      cl1.literals = (linRecAux O (O.sortLits cl.literals)
            (O.sortLits cl.literals).reverse [] false).1) := by
  constructor
  · intro O orig lit revPre kept chg
    rfl
  · intro O st cl
    obtain ⟨b2, c2, st2, hc, _⟩ := condense_ok O st
      { cl with literals := O.sortLits cl.literals }
    simp only [do_condense_lin]
    rw [hc]
    exact ⟨_, st2, _, rfl, rfl⟩

/-- C4 (counterexample): on the `O3ex` clause the linear pass and the
embedded `Condense` run disagree on the final literal count (2 against
0), yet `do_condense_lin` RETURNS a value (`.ok` with the mismatch
diagnostic recorded in its final component) instead of aborting, and
the cross-validation run is not compiled out: it executed and bumped
the attempt counter. -/
theorem claim_C4_counterexample :
    do_condense_lin O3ex ⟨0, 0⟩ cl3ex =
      .ok (true, ⟨[], 0, 0, 0, []⟩, ⟨1, 0⟩, true) ∧
    (2 : Nat) ≠ 0 ∧ (⟨1, 0⟩ : Stats).attempts = 0 + 1 :=
  ⟨rfl, by decide, rfl⟩

/-- C4 (amended): a cross-validation disagreement in `do_condense_lin`
only prints a diagnostic and execution continues — the function always
returns a value — and the harness is unconditional in the source: every
call runs the embedded debug `Condense` and therefore bumps the
attempt counter by one. -/
theorem claim_C4_amended : ∀ (O : Oracles L S) (st : Stats)
    (cl : Clause L),
    ∃ chg cl1 st2 d, do_condense_lin O st cl = .ok (chg, cl1, st2, d) ∧
      st2.attempts = st.attempts + 1 := by
  intro O st cl
  obtain ⟨b2, c2, st2, hc, ha⟩ := condense_ok O st
    { cl with literals := O.sortLits cl.literals }
  simp only [do_condense_lin]
  rw [hc]
  exact ⟨_, _, st2, _, rfl, ha⟩

/-- C5: `CondenseSet` performs at most one reduction per call — when
the guard passes it is exactly one `CondenseOnceSet` invocation whose
single success or failure it reports, and when the guard fails it does
nothing — whereas `Condense` iterates `CondenseOnce` to a fixpoint:
whatever clause it returns (when the guard passed), `CondenseOnce`
reports no further change on it. -/
theorem claim_C5 :
    (∀ (O : Oracles L S) (st : Stats) (cl : Clause L),
      (1 < cl.pos_lit_no ∨ 1 < cl.neg_lit_no) →
      CondenseSet O st cl =
        (if (CondenseOnceSet O cl).1 then
          (true, pushDeriv (CondenseOnceSet O cl).2,
            bumpSuccesses (bumpAttempts st))
         else (false, cl, bumpAttempts st))) ∧
    (∀ (O : Oracles L S) (st : Stats) (cl : Clause L),
      ¬(1 < cl.pos_lit_no ∨ 1 < cl.neg_lit_no) →
      CondenseSet O st cl = (false, cl, bumpAttempts st)) ∧
    (∀ (O : Oracles L S) (st st1 : Stats) (cl cl1 : Clause L) (b : Bool),
      Condense O st cl = .ok (b, cl1, st1) →
      (1 < cl.pos_lit_no ∨ 1 < cl.neg_lit_no) →
      CondenseOnce O cl1 = .ok (false, cl1)) := by
  refine ⟨?_, ?_, ?_⟩
  · intro O st cl hg
    simp only [CondenseSet]
    rw [if_pos hg]
  · intro O st cl hg
    simp only [CondenseSet]
    rw [if_neg hg]
  · intro O st st1 cl cl1 b h hg
    rw [condense_of_guard_true hg] at h
    obtain ⟨res, c, n, hloop, _, hfix, _⟩ :=
      condenseLoopR_spec O ({ cl with
        weight := O.weight cl.literals
        literals := O.sortLits cl.literals } : Clause L).literals.length _
        (le_refl _)
    rw [hloop] at h
    cases res
    · have h2 : (Except.ok (b, cl1, st1) :
          Except Unit (Bool × Clause L × Stats)) =
          .ok (false, c, bumpAttempts st) := h.symm
      cases h2
      exact hfix
    · have h2 : (Except.ok (b, cl1, st1) :
          Except Unit (Bool × Clause L × Stats)) =
          .ok (true, pushDeriv c, bumpSuccesses (bumpAttempts st)) := h.symm
      cases h2
      exact @condenseOnce_congr_literals L S O c (pushDeriv c) rfl hfix

/-- C5 (witness): the three parts of the theorem instantiated — the
guard-passing single-shot equation on the `Oc8` clause, the
guard-failing case on a unit clause, and the fixpoint property of the
clause returned by the full `Condense` run on the `Oc8` clause. -/
theorem claim_C5_witness :
    (CondenseSet Oc8 ⟨0, 0⟩ cl0 =
      (if (CondenseOnceSet Oc8 cl0).1 then
        (true, pushDeriv (CondenseOnceSet Oc8 cl0).2,
          bumpSuccesses (bumpAttempts ⟨0, 0⟩))
       else (false, cl0, bumpAttempts ⟨0, 0⟩))) ∧
    CondenseSet OTriv ⟨0, 0⟩ ⟨[4], 1, 0, 1, []⟩ =
      (false, ⟨[4], 1, 0, 1, []⟩, bumpAttempts ⟨0, 0⟩) ∧
    CondenseOnce Oc8 ⟨[3], 1, 0, 1, [1]⟩ =
      .ok (false, ⟨[3], 1, 0, 1, [1]⟩) :=
  ⟨claim_C5.1 Oc8 ⟨0, 0⟩ cl0 (by decide),
   claim_C5.2.1 OTriv ⟨0, 0⟩ ⟨[4], 1, 0, 1, []⟩ (by decide),
   claim_C5.2.2 Oc8 ⟨0, 0⟩ ⟨1, 1⟩ cl0 ⟨[3], 1, 0, 1, [1]⟩ true oc8_run
     (by decide)⟩

/-- C6: on a clause with at most one positive and at most one negative
literal (cached counts consistent with the literal list), both entry
points leave the clause untouched and report no change, while the
attempt counter increments by one and the success counter does not
move. -/
theorem claim_C6 : ∀ (O : Oracles L S) (st : Stats) (cl : Clause L),
    cl.pos_lit_no = posCount O cl.literals →
    cl.neg_lit_no = negCount O cl.literals →
    posCount O cl.literals ≤ 1 → negCount O cl.literals ≤ 1 →
    Condense O st cl = .ok (false, cl, bumpAttempts st) ∧
    CondenseSet O st cl = (false, cl, bumpAttempts st) ∧
    (bumpAttempts st).attempts = st.attempts + 1 ∧
    (bumpAttempts st).successes = st.successes := by
  intro O st cl hp hn hp1 hn1
  have hg : ¬(1 < cl.pos_lit_no ∨ 1 < cl.neg_lit_no) := by omega
  refine ⟨condense_of_guard_false hg, ?_, rfl, rfl⟩
  simp only [CondenseSet]
  rw [if_neg hg]

/-- C6 (witness): the theorem instantiated at the inert oracle and a
unit clause. -/
theorem claim_C6_witness :
    Condense OTriv ⟨0, 0⟩ ⟨[4], 1, 0, 1, []⟩ =
      .ok (false, ⟨[4], 1, 0, 1, []⟩, ⟨1, 0⟩) ∧
    CondenseSet OTriv ⟨0, 0⟩ ⟨[4], 1, 0, 1, []⟩ =
      (false, ⟨[4], 1, 0, 1, []⟩, ⟨1, 0⟩) := by
  have h := claim_C6 OTriv ⟨0, 0⟩ ⟨[4], 1, 0, 1, []⟩ (by decide) (by decide)
    (by decide) (by decide)
  exact ⟨h.1, h.2.1⟩

/-- C7 (counterexample): a successful `CondenseOnce` round need not
decrease the literal count by exactly one.  On the clause
`P(x,y) ∨ P(a,b) ∨ P(x,b)` the first unification instantiates both
remaining literals to `P(a,b)`, duplicate removal collapses them, and
the round drops the count from 3 to 1 — a decrease of two. -/
theorem claim_C7_counterexample :
    CondenseOnce Oc7 cl7 = .ok (true, ⟨[2], 1, 0, 1, []⟩) ∧
    cl7.literals.length = 3 ∧
    (⟨[2], 1, 0, 1, []⟩ : Clause Nat).literals.length = 1 :=
  ⟨rfl, rfl, rfl⟩

/-- C7 (amended): every successful `CondenseOnce` invocation strictly
decreases the literal count (by at least one), so the `while` loop of
`Condense` performs at most `|literals|` successful rounds before
`CondenseOnce` reports no change. -/
theorem claim_C7_amended : ∀ (O : Oracles L S) (cl : Clause L),
    (∀ cl2, CondenseOnce O cl = .ok (true, cl2) →
      cl2.literals.length < cl.literals.length) ∧
    (∀ res c n, condenseLoopR O cl = .ok (res, c, n) →
      n ≤ cl.literals.length) := by
  intro O cl
  constructor
  · intro cl2 h
    exact (condenseOnce_true h).1
  · intro res c n h
    obtain ⟨res0, c0, n0, h0, hn0, _, _⟩ :=
      condenseLoopR_spec O cl.literals.length cl (le_refl _)
    rw [h0] at h
    cases h
    exact hn0

/-- C7 (witness): the amended theorem instantiated on the `Oc8`
clause — the first successful round shrinks 3 to 2, and the loop on the
3-literal clause performs 2 ≤ 3 successful rounds. -/
theorem claim_C7_witness :
    (⟨[2, 3], 2, 0, 2, []⟩ : Clause Nat).literals.length <
      cl0.literals.length ∧
    (2 : Nat) ≤ cl0.literals.length :=
  ⟨(claim_C7_amended Oc8 cl0).1 ⟨[2, 3], 2, 0, 2, []⟩ oc8_once1,
   (claim_C7_amended Oc8 cl0).2 true ⟨[3], 1, 0, 1, []⟩ 2 oc8_loop⟩

/-- C8 (counterexample): re-running condensation on a clause already
returned by a condensation call can report a change: the single-shot
`CondenseSet` condenses `P(x1) ∨ P(x2) ∨ P(a)` to `P(x2) ∨ P(a)`, and
a second `CondenseSet` call on that returned clause condenses again
(to `P(a)`), reporting `changed = true` instead of the claimed
`false`. -/
theorem claim_C8_counterexample :
    CondenseSet Oc8 ⟨0, 0⟩ cl0 =
      (true, ⟨[2, 3], 2, 0, 2, [1]⟩, ⟨1, 1⟩) ∧
    (CondenseSet Oc8 ⟨1, 1⟩ ⟨[2, 3], 2, 0, 2, [1]⟩).1 = true := by
  decide

/-- C8 (amended): the fixpoint driver `Condense` is idempotent:
re-running it on any clause it returned reports `changed = false` and
leaves the literal sequence identical.  (The single-shot `CondenseSet`
does not have this property; see the counterexample.) -/
theorem claim_C8_amended : ∀ (O : Oracles L S) (st st2 : Stats)
    (cl : Clause L) (b : Bool) (cl1 : Clause L) (st1 : Stats),
    Condense O st cl = .ok (b, cl1, st1) →
    ∃ cl2 st3, Condense O st2 cl1 = .ok (false, cl2, st3) ∧
      cl2.literals = cl1.literals := by
  intro O st st2 cl b cl1 st1 h
  by_cases hg : 1 < cl.pos_lit_no ∨ 1 < cl.neg_lit_no
  · rw [condense_of_guard_true hg] at h
    obtain ⟨res, c, n, hloop, _, hfix, him⟩ :=
      condenseLoopR_spec O ({ cl with
        weight := O.weight cl.literals
        literals := O.sortLits cl.literals } : Clause L).literals.length _
        (le_refl _)
    rw [hloop] at h
    have hxs : ∃ xs, c.literals = O.sortLits xs := by
      rcases him with rfl | h2
      · exact ⟨cl.literals, rfl⟩
      · exact h2
    obtain ⟨xs, hxs⟩ := hxs
    have hsort : O.sortLits c.literals = c.literals := by
      rw [hxs]
      exact O.sortLits_idem xs
    have hscan := condenseOnce_false_scan hfix
    cases res
    · have h2 : (Except.ok (b, cl1, st1) :
          Except Unit (Bool × Clause L × Stats)) =
          .ok (false, c, bumpAttempts st) := h.symm
      cases h2
      exact condense_on_fixed O st2 _ hsort hscan
    · have h2 : (Except.ok (b, cl1, st1) :
          Except Unit (Bool × Clause L × Stats)) =
          .ok (true, pushDeriv c, bumpSuccesses (bumpAttempts st)) := h.symm
      cases h2
      exact condense_on_fixed O st2 (pushDeriv c) hsort hscan
  · rw [condense_of_guard_false hg] at h
    have h2 : (Except.ok (b, cl1, st1) :
        Except Unit (Bool × Clause L × Stats)) =
        .ok (false, cl, bumpAttempts st) := h.symm
    cases h2
    exact ⟨cl, bumpAttempts st2, condense_of_guard_false hg, rfl⟩

/-- C8 (witness): the amended theorem instantiated on the full `Oc8`
run — re-running `Condense` on the returned clause `P(a)` reports no
change with the same literal list. -/
theorem claim_C8_witness :
    ∃ cl2 st3, Condense Oc8 ⟨5, 5⟩ ⟨[3], 1, 0, 1, [1]⟩ =
      .ok (false, cl2, st3) ∧
      cl2.literals = (⟨[3], 1, 0, 1, [1]⟩ : Clause Nat).literals :=
  claim_C8_amended Oc8 ⟨0, 0⟩ ⟨5, 5⟩ cl0 true ⟨[3], 1, 0, 1, [1]⟩ ⟨1, 1⟩
    oc8_run

/-- C9: in `CondenseOnce` the swap flag is false whenever one-way
unification is attempted — the entry of the swap loop performs exactly
the single unswapped trial — and the `Error("SWAP = TRUE", ...)` branch
is unreachable: `CondenseOnce` never aborts. -/
theorem claim_C9 : ∀ (O : Oracles L S) (cl : Clause L),
    (∃ r, CondenseOnce O cl = .ok r) ∧
    ∀ (t b : List L) (l1 l2 : L), plainSwapLoop O t b l1 l2 false =
      (match O.unifyOneWay l1 l2 false O.emptySubst with
       | some σ =>
         match buildCandidate O t b σ with
         | some c => .ok (some c)
         | none => .ok none
       | none => .ok none) :=
  fun O cl =>
    ⟨condenseOnce_ok O cl,
     fun t b l1 l2 => plainSwapLoop_swapFalse O t b l1 l2⟩

/-- C10: neither exported entry point ever executes the linear pass:
`do_condense_lin` is the only consumer of the set-modulo subsumption
oracle, and both `Condense` and `CondenseSet` are invariant under
arbitrary replacement of that oracle; moreover `CondenseSet` coincides
with the guard-then-single-`CondenseOnceSet`-plus-bookkeeping
pipeline. -/
theorem claim_C10 :
    (∀ (O : Oracles L S) (st : Stats) (cl : Clause L),
      CondenseSet O st cl = condenseSetSpec O st cl) ∧
    (∀ (O : Oracles L S) (f : List L → List L → Bool) (st : Stats)
      (cl : Clause L),
      CondenseSet (replaceModSet O f) st cl = CondenseSet O st cl) ∧
    (∀ (O : Oracles L S) (f : List L → List L → Bool) (st : Stats)
      (cl : Clause L),
      Condense (replaceModSet O f) st cl = Condense O st cl) :=
  ⟨condenseSet_eq_spec, condenseSet_replaceModSet, condense_replaceModSet⟩

end Cond
